import Mathlib

/-!
Verification of the `net_collector` connection core
(`src/net_collector/src/connector.py`, `executor.py`, `config.py`).

The Python code is shallowly embedded as executable Lean definitions:
  * bytes are `Nat` (0..255), byte strings are `List Nat`;
  * Python `str` is Lean `String`, with the handful of Python string
    primitives the code uses (`splitlines`, `strip`, `in`, `lower`,
    `[-n:]`) re-implemented over `String.data` so that every definition
    reduces in the kernel;
  * blocking socket reads are modelled by an explicit list of receive
    events, and wall-clock deadlines by exhaustion of that list;
  * the concrete regular expressions of the source are compiled by hand
    into decidable character-list matchers with the same semantics.
-/

/- ------------------------------------------------------------------ -/
/- Python string primitives                                            -/
/- ------------------------------------------------------------------ -/

/-- Python `str.lower()` (ASCII range, which is all the code compares). -/
def lowerStr (s : String) : String := ⟨s.data.map Char.toLower⟩

/-- Whitespace test used by Python `str.strip()` for the characters that
occur in this code base (space, tab, CR, LF). -/
def isWs (c : Char) : Bool := c.isWhitespace

/-- Python `str.strip()`. -/
def pyStrip (s : String) : String :=
  ⟨((s.data.dropWhile isWs).reverse.dropWhile isWs).reverse⟩

/-- `needle` occurs as a prefix of `hay`. -/
def isPre : List Char → List Char → Bool
  | [], _ => true
  | _ :: _, [] => false
  | a :: as, b :: bs => a == b && isPre as bs

/-- Python substring containment `needle in hay`. -/
def strContains (hay needle : String) : Bool :=
  go needle.data hay.data
where
  go (nd : List Char) : List Char → Bool
    | [] => nd.isEmpty
    | c :: rest => isPre nd (c :: rest) || go nd rest

/-- Split a character list on newline characters (keeping empty pieces). -/
def splitOnNl : List Char → List (List Char)
  | [] => [[]]
  | '\n' :: rest => [] :: splitOnNl rest
  | c :: rest =>
    match splitOnNl rest with
    | l :: ls => (c :: l) :: ls
    | [] => [[c]]

/-- Python `str.splitlines()` for `\n`-separated text (the buffer is
newline-normalised before any `splitlines` call in the source). -/
def pySplitlines (s : String) : List String :=
  if s.data.isEmpty then []
  else
    let parts := (splitOnNl s.data).map (fun l => (⟨l⟩ : String))
    if s.data.getLast? == some '\n' then parts.dropLast else parts

/-- Python `"\n".join(lines)`. -/
def joinLines : List String → String
  | [] => ""
  | [l] => l
  | l :: rest => l ++ "\n" ++ joinLines rest

/-- Python `s[-n:]`. -/
def strTakeRight (s : String) (n : Nat) : String :=
  ⟨s.data.drop (s.data.length - n)⟩

/- ------------------------------------------------------------------ -/
/- TelnetSocket._process_iac                                           -/
/- ------------------------------------------------------------------ -/

/-- Position of the scanning index of `TelnetSocket._process_iac`
relative to a pending escape sequence.  The Python loop walks an index
`i` over the chunk; the states record how many bytes of an IAC sequence
have been consumed (`gotIac` after `IAC`, `gotCmd` after `IAC cmd`,
`inSb`/`inSbIac` inside a subnegotiation block while scanning for the
`IAC SE` pair exactly as `bytes.find` does). -/
inductive IacState
  | normal
  | gotIac
  | gotCmd (cmd : Nat)
  | inSb
  | inSbIac
deriving DecidableEq, Repr

/-- Core of `TelnetSocket._process_iac`: returns the cleaned payload
bytes and the list of negotiation replies written to the socket, in
order.  Incomplete sequences at the end of a chunk are dropped, exactly
as the index arithmetic of the source does. -/
def processIacAux : IacState → List Nat → List Nat × List (List Nat)
  | IacState.normal, [] => ([], [])
  | IacState.normal, b :: rest =>
    if b == 255 then processIacAux IacState.gotIac rest
    else
      let pr := processIacAux IacState.normal rest
      (b :: pr.1, pr.2)
  | IacState.gotIac, [] => ([], [])
  | IacState.gotIac, cmd :: rest =>
    if cmd == 251 || cmd == 252 || cmd == 253 || cmd == 254 then
      processIacAux (IacState.gotCmd cmd) rest
    else if cmd == 250 then processIacAux IacState.inSb rest
    else if cmd == 255 then
      let pr := processIacAux IacState.normal rest
      (255 :: pr.1, pr.2)
    else processIacAux IacState.normal rest
  | IacState.gotCmd _, [] => ([], [])
  | IacState.gotCmd cmd, opt :: rest =>
    let pr := processIacAux IacState.normal rest
    if cmd == 253 then (pr.1, [255, 252, opt] :: pr.2)
    else if cmd == 251 then (pr.1, [255, 254, opt] :: pr.2)
    else (pr.1, pr.2)
  | IacState.inSb, [] => ([], [])
  | IacState.inSb, b :: rest =>
    if b == 255 then processIacAux IacState.inSbIac rest
    else processIacAux IacState.inSb rest
  | IacState.inSbIac, [] => ([], [])
  | IacState.inSbIac, b :: rest =>
    if b == 240 then processIacAux IacState.normal rest
    else if b == 255 then processIacAux IacState.inSbIac rest
    else processIacAux IacState.inSb rest

/-- `TelnetSocket._process_iac(data)`: `(clean bytes, replies sent)`. -/
def processIac (data : List Nat) : List Nat × List (List Nat) :=
  processIacAux IacState.normal data

/- ------------------------------------------------------------------ -/
/- TelnetSocket._decode_buffer                                         -/
/- ------------------------------------------------------------------ -/

/-- One step of UTF-8 decoding with `errors="replace"`: decode the first
scalar (or replacement char for an invalid sequence, consuming the
maximal valid subpart as CPython does) and return it with the remaining
bytes.  Fuel-driven so that the definition is structural and reduces in
the kernel; the fuel is always at least the length of the input. -/
def utf8DecodeGo : Nat → List Nat → List Char
  | 0, _ => []
  | _ + 1, [] => []
  | fuel + 1, b :: rest =>
    let repl : Char := Char.ofNat 0xFFFD
    let cont (x : Nat) : Bool := 0x80 ≤ x && x ≤ 0xBF
    if b < 0x80 then Char.ofNat b :: utf8DecodeGo fuel rest
    else if 0xC2 ≤ b && b ≤ 0xDF then
      match rest with
      | b2 :: rest2 =>
        if cont b2 then
          Char.ofNat ((b - 0xC0) * 64 + (b2 - 0x80)) :: utf8DecodeGo fuel rest2
        else repl :: utf8DecodeGo fuel rest
      | [] => [repl]
    else if 0xE0 ≤ b && b ≤ 0xEF then
      match rest with
      | b2 :: rest2 =>
        let ok2 : Bool :=
          if b == 0xE0 then 0xA0 ≤ b2 && b2 ≤ 0xBF
          else if b == 0xED then 0x80 ≤ b2 && b2 ≤ 0x9F
          else cont b2
        if ok2 then
          match rest2 with
          | b3 :: rest3 =>
            if cont b3 then
              Char.ofNat ((b - 0xE0) * 4096 + (b2 - 0x80) * 64 + (b3 - 0x80)) ::
                utf8DecodeGo fuel rest3
            else repl :: utf8DecodeGo fuel rest2
          | [] => [repl]
        else repl :: utf8DecodeGo fuel rest
      | [] => [repl]
    else if 0xF0 ≤ b && b ≤ 0xF4 then
      match rest with
      | b2 :: rest2 =>
        let ok2 : Bool :=
          if b == 0xF0 then 0x90 ≤ b2 && b2 ≤ 0xBF
          else if b == 0xF4 then 0x80 ≤ b2 && b2 ≤ 0x8F
          else cont b2
        if ok2 then
          match rest2 with
          | b3 :: rest3 =>
            if cont b3 then
              match rest3 with
              | b4 :: rest4 =>
                if cont b4 then
                  Char.ofNat ((b - 0xF0) * 262144 + (b2 - 0x80) * 4096 +
                      (b3 - 0x80) * 64 + (b4 - 0x80)) :: utf8DecodeGo fuel rest4
                else repl :: utf8DecodeGo fuel rest3
              | [] => [repl]
            else repl :: utf8DecodeGo fuel rest2
          | [] => [repl]
        else repl :: utf8DecodeGo fuel rest
      | [] => [repl]
    else repl :: utf8DecodeGo fuel rest

/-- Python `bytes.decode("utf-8", errors="replace")`. -/
def utf8Decode (bs : List Nat) : List Char := utf8DecodeGo (bs.length + 1) bs

/-- Match a CSI escape sequence `ESC [ [0-9;]* [a-zA-Z]` at the head of
the list, returning the suffix after it. -/
def dropCsi (l : List Char) : Option (List Char) :=
  match l with
  | a :: b :: rest =>
    if a == '\x1b' && b == '[' then
      afterParams (rest.dropWhile isCsiParam)
    else none
  | _ => none
where
  isCsiParam (c : Char) : Bool := c.isDigit || c == ';'
  afterParams : List Char → Option (List Char)
    | c :: rest => if c.isAlpha then some rest else none
    | [] => none

/-- Match an OSC escape sequence `ESC ] [^\x07]* \x07` at the head of
the list, returning the suffix after it. -/
def dropOsc (l : List Char) : Option (List Char) :=
  match l with
  | a :: b :: rest =>
    if a == '\x1b' && b == ']' then
      match rest.dropWhile (fun c => c != '\x07') with
      | _ :: tail => some tail
      | [] => none
    else none
  | _ => none

/-- `_ANSI_ESC.sub("", text)`: remove every ANSI escape sequence.
Fuel-driven (the fuel is always at least the input length). -/
def ansiStripGo : Nat → List Char → List Char
  | 0, l => l
  | _ + 1, [] => []
  | fuel + 1, c :: rest =>
    match dropCsi (c :: rest) with
    | some tail => ansiStripGo fuel tail
    | none =>
      match dropOsc (c :: rest) with
      | some tail => ansiStripGo fuel tail
      | none => c :: ansiStripGo fuel rest

def ansiStrip (l : List Char) : List Char := ansiStripGo l.length l

/-- `text.replace("\r\n", "\n").replace("\r", "\n")`. -/
def normNl : List Char → List Char
  | [] => []
  | [c] => if c == '\r' then ['\n'] else [c]
  | c :: d :: rest =>
    if c == '\r' then
      if d == '\n' then '\n' :: normNl rest
      else '\n' :: normNl (d :: rest)
    else c :: normNl (d :: rest)

/-- `TelnetSocket._decode_buffer`: UTF-8 decode with replacement, strip
ANSI escapes, normalise line endings. -/
def decodeBuffer (buf : List Nat) : String :=
  ⟨normNl (ansiStrip (utf8Decode buf))⟩

/- ------------------------------------------------------------------ -/
/- TelnetSocket.read_until                                             -/
/- ------------------------------------------------------------------ -/

/-- One result of a blocking `recv` call: a data chunk, a socket timeout
(which the loop swallows), or an empty read meaning the peer closed. -/
inductive RecvEvent
  | chunk (bs : List Nat)
  | timedOut
  | closed
deriving DecidableEq, Repr

/-- Outcome of `TelnetSocket.read_until`: the returned text, the
`TimeoutError` (whose message carries `text[-200:]`), or the
`ConnectionError` raised on a peer close. -/
inductive ReadOutcome
  | ok (text : String)
  | timeoutErr (tail : String)
  | connClosed
deriving DecidableEq, Repr

/-- Payload bytes appended to the buffer for one received chunk. -/
def cleanChunk (bs : List Nat) : List Nat := (processIac bs).1

/-- The stabilization loop after a pattern match: keep appending data
that arrives within the stable-wait window.  In the event model the
window ends at the first non-chunk event. -/
def stabilize : List RecvEvent → List Nat
  | RecvEvent.chunk bs :: rest => cleanChunk bs ++ stabilize rest
  | _ => []

/-- `TelnetSocket.read_until(patterns, timeout)` over an explicit list
of receive events.  The deadline expiring corresponds to the event list
running out.  Returns the outcome together with the internal buffer
left behind (`self._buffer`). -/
def readUntil (pats : List (String → Bool)) :
    List RecvEvent → List Nat → ReadOutcome × List Nat
  | events, buf =>
    let text := decodeBuffer buf
    if pats.any (fun p => p text) then
      (ReadOutcome.ok (decodeBuffer (buf ++ stabilize events)), [])
    else
      match events with
      | [] => (ReadOutcome.timeoutErr (strTakeRight text 200), buf)
      | RecvEvent.timedOut :: rest => readUntil pats rest buf
      | RecvEvent.closed :: _ => (ReadOutcome.connClosed, buf)
      | RecvEvent.chunk bs :: rest => readUntil pats rest (buf ++ cleanChunk bs)

/-- The buffer accumulated by the receive loop over a run of events
(`self._buffer += self._process_iac(chunk)` for each data chunk). -/
def accum (buf : List Nat) : List RecvEvent → List Nat
  | [] => buf
  | RecvEvent.chunk bs :: rest => accum (buf ++ cleanChunk bs) rest
  | _ :: rest => accum buf rest

/-- No pattern matches the decoded buffer at any point of the run: the
check the loop performs before each receive fails at every step. -/
def noMatchRun (pats : List (String → Bool)) (buf : List Nat) :
    List RecvEvent → Bool
  | [] => !(pats.any fun p => p (decodeBuffer buf))
  | e :: rest =>
    !(pats.any fun p => p (decodeBuffer buf)) &&
      noMatchRun pats
        (match e with
         | RecvEvent.chunk bs => buf ++ cleanChunk bs
         | _ => buf) rest

/- ------------------------------------------------------------------ -/
/- Vendor prompt patterns and the pager pattern                        -/
/- ------------------------------------------------------------------ -/

/-- The three entries of `VENDOR_PROMPT`. -/
inductive PromptPat
  | juniper
  | cisco
  | generic
deriving DecidableEq, Repr

/-- `VENDOR_PROMPT.get(device.vendor.lower(), VENDOR_PROMPT["generic"])`. -/
def vendorPrompt (vendor : String) : PromptPat :=
  if lowerStr vendor == "juniper" then PromptPat.juniper
  else if lowerStr vendor == "cisco" then PromptPat.cisco
  else PromptPat.generic

/-- Character class `[a-zA-Z0-9._@-]`. -/
def isHostChar (c : Char) : Bool :=
  c.isAlpha || c.isDigit || c == '.' || c == '_' || c == '@' || c == '-'

/-- `re.search(prompt_pattern, s, re.IGNORECASE)` for a single-line
string (no embedded newline; the callers pass `line.strip()`).  The
patterns are `[a-zA-Z0-9._@-]+[>#%]\s*$` (juniper),
`[a-zA-Z0-9._@-]+[>#]\s*$` (cisco) and `[$#>%]\s*$` (generic): after
discarding trailing whitespace (`\s*$`) the string must end in a prompt
symbol preceded, for the vendor patterns, by at least one host
character. -/
def promptSearch (pat : PromptPat) (s : String) : Bool :=
  let t := s.data.reverse.dropWhile isWs
  match pat with
  | PromptPat.juniper =>
    match t with
    | sym :: c :: _ => (sym == '>' || sym == '#' || sym == '%') && isHostChar c
    | _ => false
  | PromptPat.cisco =>
    match t with
    | sym :: c :: _ => (sym == '>' || sym == '#') && isHostChar c
    | _ => false
  | PromptPat.generic =>
    match t with
    | sym :: _ => sym == '$' || sym == '#' || sym == '>' || sym == '%'
    | [] => false

/-- Count the leading `-` characters of a list. -/
def takeDashes : List Char → Nat
  | '-' :: rest => takeDashes rest + 1
  | _ => 0

/-- Try to match the first alternative of `_PAGER_PATTERN`,
`--[-(]more[)-]-+` (case-insensitive), at the head of the list; return
the suffix after the (greedy) match. -/
def matchPagerDashes (l : List Char) : Option (List Char) :=
  match l with
  | '-' :: '-' :: c :: m :: o :: r :: e :: d :: rest =>
    if (c == '-' || c == '(') && m.toLower == 'm' && o.toLower == 'o' &&
        r.toLower == 'r' && e.toLower == 'e' && (d == ')' || d == '-') then
      let k := takeDashes rest
      if 1 ≤ k then some (rest.drop k) else none
    else none
  | _ => none

/-- Try to match `<more>` (case-insensitive) at the head of the list. -/
def matchPagerAngle (l : List Char) : Option (List Char) :=
  match l with
  | a :: m :: o :: r :: e :: b :: rest =>
    if a == '<' && m.toLower == 'm' && o.toLower == 'o' && r.toLower == 'r' &&
        e.toLower == 'e' && b == '>' then some rest
    else none
  | _ => none

/-- Try to match `\(END\)` (case-insensitive) at the head of the list. -/
def matchPagerEnd (l : List Char) : Option (List Char) :=
  match l with
  | a :: e1 :: n :: d :: b :: rest =>
    if a == '(' && e1.toLower == 'e' && n.toLower == 'n' && d.toLower == 'd' &&
        b == ')' then some rest
    else none
  | _ => none

/-- Try each alternative of `_PAGER_PATTERN` at the head of the list
(the alternatives start with distinct characters, so the order of the
Python alternation cannot matter). -/
def matchPagerAt (l : List Char) : Option (List Char) :=
  match matchPagerDashes l with
  | some tail => some tail
  | none =>
    match matchPagerAngle l with
    | some tail => some tail
    | none => matchPagerEnd l

/-- `re.search(_PAGER_PATTERN, s, re.IGNORECASE)`. -/
def pagerSearch : List Char → Bool
  | [] => false
  | c :: rest => (matchPagerAt (c :: rest)).isSome || pagerSearch rest

/-- `re.sub(_PAGER_PATTERN, "", s, flags=re.IGNORECASE)`: remove every
(leftmost, non-overlapping) match.  Fuel-driven; each match consumes at
least five characters, so the input length is enough fuel. -/
def pagerSubGo : Nat → List Char → List Char
  | 0, l => l
  | _ + 1, [] => []
  | fuel + 1, c :: rest =>
    match matchPagerAt (c :: rest) with
    | some tail => pagerSubGo fuel tail
    | none => c :: pagerSubGo fuel rest

def pagerSub (l : List Char) : List Char := pagerSubGo l.length l

/- ------------------------------------------------------------------ -/
/- InteractiveSession._clean_output and send_command                   -/
/- ------------------------------------------------------------------ -/

/-- Number of leading lines whose `strip()` is empty (the first `while`
loop of `_clean_output`). -/
def countLeadingBlank : List String → Nat
  | [] => 0
  | l :: rest => if pyStrip l == "" then countLeadingBlank rest + 1 else 0

/-- The `start` index computed by `_clean_output`: skip blank lines,
then skip one more line if it contains the command echo. -/
def startIdx (command : String) (lines : List String) : Nat :=
  let s := countLeadingBlank lines
  match lines.drop s with
  | l :: _ => if strContains l (pyStrip command) then s + 1 else s
  | [] => s

/-- Length of the maximal run of prompt-matching lines at the head of a
list (used on the reversed tail to mirror the second `while` loop of
`_clean_output`). -/
def countLeadingPrompt (pat : PromptPat) : List String → Nat
  | [] => 0
  | l :: rest =>
    if promptSearch pat (pyStrip l) then countLeadingPrompt pat rest + 1 else 0

/-- The `end` index computed by `_clean_output`: strip trailing
prompt-matching lines, never moving past `start`. -/
def endIdx (pat : PromptPat) (start : Nat) (lines : List String) : Nat :=
  let suffix := lines.drop start
  start + (suffix.length - countLeadingPrompt pat suffix.reverse)

/-- Line-level core of `_clean_output`. -/
def cleanLines (pat : PromptPat) (command : String) (lines : List String) :
    String :=
  let s := startIdx command lines
  let e := endIdx pat s lines
  pyStrip (joinLines ((lines.drop s).take (e - s)))

/-- `InteractiveSession._clean_output(command, raw)`. -/
def cleanOutput (pat : PromptPat) (command raw : String) : String :=
  cleanLines pat command (pySplitlines raw)

/-- The read loop of `InteractiveSession.send_command` over the
successive return values of `read_until`: a chunk matching
`_PAGER_PATTERN` is appended with the marker removed and answered with
a space keystroke; the first non-pager chunk ends the loop.  Returns
`none` if the reads run out (the real code would block and time out),
otherwise the cleaned output together with everything written to the
socket (the command itself, then one space per pager continuation). -/
def sendLoop (pat : PromptPat) (command : String) :
    List String → List String → List String → Option (String × List String)
  | [], _, _ => none
  | chunk :: rest, parts, writes =>
    if pagerSearch chunk.data then
      sendLoop pat command rest (parts ++ [(⟨pagerSub chunk.data⟩ : String)])
        (writes ++ [" "])
    else
      some (cleanOutput pat command (String.join (parts ++ [chunk])), writes)

/-- `InteractiveSession.send_command(command, timeout)` with the device
output delivered as an explicit list of `read_until` results. -/
def sendCommand (pat : PromptPat) (command : String) (reads : List String) :
    Option (String × List String) :=
  sendLoop pat command reads [] [command]

/- ------------------------------------------------------------------ -/
/- Configuration data (config.py)                                      -/
/- ------------------------------------------------------------------ -/

/-- `BastionConfig`. -/
structure BastionConfig where
  name : String
  host : String
  port : Nat
  protocol : String
  username : String
  password : String
deriving DecidableEq, Repr

/-- `DeviceConfig` (`enable_password` is optional). -/
structure DeviceConfig where
  name : String
  host : String
  port : Nat
  protocol : String
  vendor : String
  username : String
  password : String
  enablePassword : Option String := none
deriving DecidableEq, Repr

/-- `KeywordConfig`. -/
structure KeywordConfig where
  word : String
  color : String
deriving DecidableEq, Repr

/-- `CommandConfig` (`vendor = none` means the command applies to every
vendor). -/
structure CommandConfig where
  name : String
  command : String
  vendor : Option String := none
  keywords : List KeywordConfig := []
deriving DecidableEq, Repr

/- ------------------------------------------------------------------ -/
/- CommandExecutor (executor.py)                                       -/
/- ------------------------------------------------------------------ -/

/-- `CommandResult`.  The wall-clock `executed_at` timestamp is
abstracted to a constant; nothing in the executor reads it. -/
structure CommandResult where
  commandName : String
  command : String
  output : String
  deviceName : String
  executedAt : Nat := 0
  error : Option String := none
deriving DecidableEq, Repr

/-- What one `session.send_command` call does: return output, raise
`TimeoutError`, or raise `ConnectionError`. -/
inductive SendOutcome
  | ok (output : String)
  | timeoutRaise (msg : String)
  | connRaise (msg : String)
deriving DecidableEq, Repr

/-- The exception escaping `execute_commands`.  Note that the Python
exception object carries only its message: no `CommandResult` travels
with it. -/
inductive ExecError
  | timeoutErr (msg : String)
  | connErr (msg : String)
deriving DecidableEq, Repr

/-- `CommandExecutor._should_execute(cmd)`. -/
def shouldExecute (device : DeviceConfig) (cmd : CommandConfig) : Bool :=
  match cmd.vendor with
  | none => true
  | some v => lowerStr v == lowerStr device.vendor

/-- `CommandExecutor._execute_one` on a successful send: builds the
result with the dataclass defaults (`error=None`). -/
def mkResult (device : DeviceConfig) (cmd : CommandConfig) (output : String) :
    CommandResult :=
  { commandName := cmd.name
    command := cmd.command
    output := output
    deviceName := device.name }

/-- The `for` loop of `execute_commands` over the filtered `targets`
list.  `sendAt k` is the outcome of the `k`-th `session.send_command`
call.  Returns the Python return value (or the escaping exception,
which discards the local `results` list) together with the trace of
command strings actually sent to the session. -/
def runTargets (device : DeviceConfig) (sendAt : Nat → SendOutcome) :
    List CommandConfig → Nat → Except ExecError (List CommandResult) × List String
  | [], _ => (Except.ok [], [])
  | c :: rest, k =>
    match sendAt k with
    | SendOutcome.ok out =>
      let pr := runTargets device sendAt rest (k + 1)
      (pr.1.map (fun rs => mkResult device c out :: rs), c.command :: pr.2)
    | SendOutcome.timeoutRaise m => (Except.error (ExecError.timeoutErr m), [c.command])
    | SendOutcome.connRaise m => (Except.error (ExecError.connErr m), [c.command])

/-- `CommandExecutor.execute_commands(commands, timeout)` together with
the trace of commands sent to the session. -/
def executeCommandsTr (device : DeviceConfig) (sendAt : Nat → SendOutcome)
    (commands : List CommandConfig) :
    Except ExecError (List CommandResult) × List String :=
  runTargets device sendAt (commands.filter (shouldExecute device)) 0

/-- `CommandExecutor.execute_commands(commands, timeout)`: the value the
caller observes (return value or escaping exception). -/
def executeCommands (device : DeviceConfig) (sendAt : Nat → SendOutcome)
    (commands : List CommandConfig) : Except ExecError (List CommandResult) :=
  (executeCommandsTr device sendAt commands).1

/-- Modelled from the spec: the error/result channel the specification
asks for ("the already-obtained CommandResults for prior commands in
the batch are preserved and returned to the caller's error handler
(... a partial-results, error pair)").  No such channel exists in
`executor.py`; this definition exists only to state the spec side of
claim C2. -/
def executeCommandsSpec (device : DeviceConfig) (sendAt : Nat → SendOutcome)
    (commands : List CommandConfig) :
    Except (List CommandResult × ExecError) (List CommandResult) :=
  go (commands.filter (shouldExecute device)) 0
where
  go : List CommandConfig → Nat → Except (List CommandResult × ExecError) (List CommandResult)
    | [], _ => Except.ok []
    | c :: rest, k =>
      match sendAt k with
      | SendOutcome.ok out =>
        match go rest (k + 1) with
        | Except.ok rs => Except.ok (mkResult device c out :: rs)
        | Except.error (rs, e) => Except.error (mkResult device c out :: rs, e)
      | SendOutcome.timeoutRaise m => Except.error ([], ExecError.timeoutErr m)
      | SendOutcome.connRaise m => Except.error ([], ExecError.connErr m)

/- ------------------------------------------------------------------ -/
/- NetmikoSession.build (connector.py)                                 -/
/- ------------------------------------------------------------------ -/

/-- Outcome of one authenticated connection attempt
(`paramiko.SSHClient.connect` for a bastion, `ConnectHandler` for the
device). -/
inductive ConnectOutcome
  | accepted
  | authFail (msg : String)
  | netFail (msg : String)
deriving DecidableEq, Repr

/-- Errors escaping `NetmikoSession.build`
(`paramiko.AuthenticationException` / `socket.error`). -/
inductive BuildError
  | authFailed (msg : String)
  | connFailed (msg : String)
deriving DecidableEq, Repr

/-- Observable resource actions of `NetmikoSession.build`. -/
inductive BuildAction
  | openClient (i : Nat)
  | openChannel (i : Nat)
  | netmikoConnect
  | netmikoEnable
  | closeClient (i : Nat)
deriving DecidableEq, Repr

/-- The `for i, bastion in enumerate(bastions)` loop of
`NetmikoSession.build`, followed by the final `ConnectHandler` call.
`connectAt k` is the outcome of the `k`-th connection attempt (hops
first, then the device).  On success the value is the `clients` list
(as hop indices); the action trace records every open and close
performed before the function returns or the exception propagates.
The source has no `try`/`except`/`finally` around the loop: no close
action is ever emitted. -/
def buildLoop (device : DeviceConfig) (connectAt : Nat → ConnectOutcome) :
    List BastionConfig → Nat → Except BuildError (List Nat) × List BuildAction
  | [], i =>
    match connectAt i with
    | ConnectOutcome.accepted =>
      (Except.ok [],
        .netmikoConnect ::
          (if device.enablePassword.isSome then [BuildAction.netmikoEnable] else []))
    | ConnectOutcome.authFail m => (Except.error (BuildError.authFailed m), [])
    | ConnectOutcome.netFail m => (Except.error (BuildError.connFailed m), [])
  | _ :: rest, i =>
    match connectAt i with
    | ConnectOutcome.accepted =>
      let pr := buildLoop device connectAt rest (i + 1)
      (pr.1.map (fun cs => i :: cs),
        BuildAction.openClient i :: BuildAction.openChannel i :: pr.2)
    | ConnectOutcome.authFail m => (Except.error (BuildError.authFailed m), [])
    | ConnectOutcome.netFail m => (Except.error (BuildError.connFailed m), [])

/-- `NetmikoSession.build(bastions, device)` over an explicit oracle of
connection outcomes: `(result, resource action trace)`. -/
def netmikoBuild (bastions : List BastionConfig) (device : DeviceConfig)
    (connectAt : Nat → ConnectOutcome) :
    Except BuildError (List Nat) × List BuildAction :=
  buildLoop device connectAt bastions 0

/- ------------------------------------------------------------------ -/
/- Sessions and ConnectionManager (connector.py)                       -/
/- ------------------------------------------------------------------ -/

/-- The two `DeviceSession` variants held by a `ConnectionManager`
after `connect()`: an `InteractiveSession` owning one telnet socket, or
a `NetmikoSession` owning a netmiko connection plus its paramiko client
list. -/
inductive SessionModel
  | interactiveSess (sockId : Nat)
  | netmikoSess (clients : List Nat)
deriving DecidableEq, Repr

/-- Observable actions of a session `disconnect()`. -/
inductive CloseAction
  | closeSocket (i : Nat)
  | netmikoDisconnect
  | closeClient (i : Nat)
deriving DecidableEq, Repr

/-- `InteractiveSession.disconnect` closes the telnet socket;
`NetmikoSession.disconnect` disconnects netmiko and then closes every
paramiko client in reverse order (close failures are suppressed). -/
def sessionDisconnectActions : SessionModel → List CloseAction
  | SessionModel.interactiveSess sid => [CloseAction.closeSocket sid]
  | SessionModel.netmikoSess clients =>
    CloseAction.netmikoDisconnect :: clients.reverse.map CloseAction.closeClient

/-- `ConnectionManager.disconnect`: acts only when `self._session` is
set, then clears it.  Returns the new `_session` field and the close
actions performed. -/
def managerDisconnect (st : Option SessionModel) :
    Option SessionModel × List CloseAction :=
  match st with
  | some s => (none, sessionDisconnectActions s)
  | none => (none, [])

/-- `ConnectionManager._find_first_telnet_idx`. -/
def findFirstTelnetIdx (bastions : List BastionConfig) : Int :=
  go bastions 0
where
  go : List BastionConfig → Nat → Int
    | [], _ => -1
    | b :: rest, i =>
      if lowerStr b.protocol == "telnet" then Int.ofNat i else go rest (i + 1)

/-- Which construction strategy `connect()` commits to. -/
inductive ConnSel
  | useNetmiko
  | useInteractive
deriving DecidableEq, Repr

/-- The `NotImplementedError` of `_connect_with_telnet`. -/
inductive TopologyError
  | unsupported
deriving DecidableEq, Repr

/-- Sockets opened while `connect()` selects and starts building a
session (`NetmikoSession.build`'s first `client.connect`, or
`TelnetSocket.open`).  The unsupported-topology error is raised before
either happens. -/
inductive OpenAction
  | openNetmikoChain
  | openTelnetSocket
deriving DecidableEq, Repr

/-- The strategy-selection logic of `ConnectionManager.connect` plus the
guard of `_connect_with_telnet`: all-SSH chains build a
`NetmikoSession`; a chain whose first telnet hop is at index 0 builds
an `InteractiveSession`; a telnet hop at a later index raises
`NotImplementedError` before any socket is opened. -/
def connectSelect (bastions : List BastionConfig) :
    Except TopologyError ConnSel × List OpenAction :=
  let idx := findFirstTelnetIdx bastions
  if idx == -1 then (Except.ok ConnSel.useNetmiko, [OpenAction.openNetmikoChain])
  else if idx > 0 then (Except.error TopologyError.unsupported, [])
  else (Except.ok ConnSel.useInteractive, [OpenAction.openTelnetSocket])

/- ------------------------------------------------------------------ -/
/- Auxiliary predicates and concrete fixtures used by the theorems     -/
/- ------------------------------------------------------------------ -/

/-- The byte list contains no escape byte (0xFF). -/
def noIac (bs : List Nat) : Bool := bs.all (fun b => b != 255)

/-- Every character of the string is printable ASCII. -/
def printableAscii (s : String) : Bool :=
  s.data.all (fun c => 32 ≤ c.toNat && c.toNat ≤ 126)

/-- A two-bastion all-SSH chain: hop 1 of the C1 scenario. -/
def bastionOne : BastionConfig :=
  { name := "bastion-1", host := "10.0.0.1", port := 22, protocol := "ssh",
    username := "u1", password := "p1" }

/-- Hop 2 of the C1 scenario (its authentication will be rejected). -/
def bastionTwo : BastionConfig :=
  { name := "bastion-2", host := "10.0.0.2", port := 22, protocol := "ssh",
    username := "u2", password := "p2" }

/-- The target device used by the concrete scenarios. -/
def devJuniper : DeviceConfig :=
  { name := "vmx1", host := "172.20.20.2", port := 22, protocol := "ssh",
    vendor := "juniper", username := "admin", password := "pw" }

/-- Connection oracle for C1: hop 1 connects, hop 2 rejects the
credentials. -/
def connFailSecond : Nat → ConnectOutcome :=
  fun k => if k == 0 then ConnectOutcome.accepted
           else ConnectOutcome.authFail "auth"

/-- A command restricted to vendor cisco. -/
def ciscoCmd : CommandConfig :=
  { name := "cisco_only", command := "show ip route", vendor := some "cisco" }

/-- A command with no vendor filter. -/
def allCmd : CommandConfig :=
  { name := "all_vendors", command := "show version" }

/-- Send oracle that always succeeds with a fixed output. -/
def sendAllOk : Nat → SendOutcome := fun _ => SendOutcome.ok "ok-output"

/-- Send oracle for C2: the first command succeeds, the second raises a
timeout. -/
def sendFailSecond : Nat → SendOutcome :=
  fun k => if k == 0 then SendOutcome.ok "out1"
           else SendOutcome.timeoutRaise "timed out"

/-- A second vendor-free command, so that the C2 scenario has a failing
second applicable command. -/
def allCmdB : CommandConfig :=
  { name := "all_vendors_b", command := "show interfaces" }

/-- A telnet (legacy-protocol) bastion for the C3 scenarios. -/
def bastionTelnet : BastionConfig :=
  { name := "bastion-t", host := "192.168.3.23", port := 23,
    protocol := "telnet", username := "sysope", password := "pw" }

/- ------------------------------------------------------------------ -/
/- Helper lemmas                                                       -/
/- ------------------------------------------------------------------ -/

theorem exceptMap_eq_error {α β γ : Type} (f : β → γ) (x : Except α β) (e : α) :
    x.map f = Except.error e ↔ x = Except.error e := by
  cases x <;> simp [Except.map]

theorem exceptMap_eq_ok {α β γ : Type} (f : β → γ) (x : Except α β) (y : γ) :
    x.map f = Except.ok y ↔ ∃ b, x = Except.ok b ∧ f b = y := by
  cases x <;> simp [Except.map]

/-- Structural facts about a successful `execute_commands` run: the
results correspond one-to-one, in order, to the filtered target list,
and every result carries the dataclass defaults. -/
theorem runTargets_ok_shape (device : DeviceConfig) (sendAt : Nat → SendOutcome) :
    ∀ (ts : List CommandConfig) (k : Nat) (rs : List CommandResult),
      (runTargets device sendAt ts k).1 = Except.ok rs →
      rs.map (fun r => r.commandName) = ts.map (fun c => c.name) ∧
      rs.map (fun r => r.command) = ts.map (fun c => c.command) ∧
      ∀ r ∈ rs, r.error = none := by
  intro ts
  induction ts with
  | nil =>
    intro k rs h
    simp only [runTargets] at h
    cases h
    simp
  | cons c rest ih =>
    intro k rs h
    simp only [runTargets] at h
    cases hs : sendAt k with
    | ok out =>
      rw [hs] at h
      simp only at h
      rw [exceptMap_eq_ok] at h
      obtain ⟨rs', hrs', hcons⟩ := h
      obtain ⟨h1, h2, h3⟩ := ih (k + 1) rs' hrs'
      subst hcons
      refine ⟨by simp [mkResult, h1], by simp [mkResult, h2], ?_⟩
      intro r hr
      rcases List.mem_cons.mp hr with h | h
      · subst h; rfl
      · exact h3 r h
    | timeoutRaise m => rw [hs] at h; cases h
    | connRaise m => rw [hs] at h; cases h

/-- On a failing run, the trace of commands actually sent is exactly
the applicable prefix up to and including the failing command, and the
escaping error is the one raised by that send. -/
theorem runTargets_error_shape (device : DeviceConfig) (sendAt : Nat → SendOutcome) :
    ∀ (ts : List CommandConfig) (k : Nat) (e : ExecError),
      (runTargets device sendAt ts k).1 = Except.error e →
      ∃ m, (runTargets device sendAt ts k).2 =
          (ts.map (fun c => c.command)).take (m + 1) ∧
        (match sendAt (k + m) with
         | SendOutcome.ok _ => False
         | SendOutcome.timeoutRaise msg => e = ExecError.timeoutErr msg
         | SendOutcome.connRaise msg => e = ExecError.connErr msg) := by
  intro ts
  induction ts with
  | nil => intro k e h; simp only [runTargets] at h; cases h
  | cons c rest ih =>
    intro k e h
    simp only [runTargets] at h ⊢
    cases hs : sendAt k with
    | ok out =>
      rw [hs] at h
      simp only at h
      rw [exceptMap_eq_error] at h
      obtain ⟨m, hm, hcase⟩ := ih (k + 1) e h
      refine ⟨m + 1, ?_, ?_⟩
      · simp [hs, hm]
      · have : k + (m + 1) = k + 1 + m := by omega
        rw [this]
        exact hcase
    | timeoutRaise msg =>
      rw [hs] at h
      cases h
      exact ⟨0, by simp [hs], by simp [hs]⟩
    | connRaise msg =>
      rw [hs] at h
      cases h
      exact ⟨0, by simp [hs], by simp [hs]⟩

/-- `NetmikoSession.build` emits no close action on any path: the
source contains no `close()` call. -/
theorem buildLoop_no_close (device : DeviceConfig)
    (connectAt : Nat → ConnectOutcome) :
    ∀ (bs : List BastionConfig) (i j : Nat),
      BuildAction.closeClient j ∉ (buildLoop device connectAt bs i).2 := by
  intro bs
  induction bs with
  | nil =>
    intro i j
    simp only [buildLoop]
    cases connectAt i <;> simp
  | cons b rest ih =>
    intro i j
    simp only [buildLoop]
    cases connectAt i with
    | accepted =>
      simp only [List.mem_cons]
      push_neg
      exact ⟨by simp, by simp, ih (i + 1) j⟩
    | authFail m => simp
    | netFail m => simp

/-- `_find_first_telnet_idx` returns -1 on a telnet-free list. -/
theorem telnetIdx_of_no_telnet :
    ∀ (bs : List BastionConfig) (i : Nat),
      (∀ b ∈ bs, lowerStr b.protocol ≠ "telnet") →
      findFirstTelnetIdx.go bs i = -1 := by
  intro bs
  induction bs with
  | nil => intro i _; rfl
  | cons b rest ih =>
    intro i h
    simp only [findFirstTelnetIdx.go]
    have hb : ¬(lowerStr b.protocol == "telnet") = true := by
      simpa using h b (by simp)
    rw [if_neg hb]
    exact ih (i + 1) (fun b2 hb2 => h b2 (by simp [hb2]))

/-- `_find_first_telnet_idx` returns an index at least the start value
when some telnet hop exists. -/
theorem telnetIdx_of_telnet :
    ∀ (bs : List BastionConfig) (i : Nat),
      (∃ b ∈ bs, lowerStr b.protocol = "telnet") →
      ∃ j : Nat, i ≤ j ∧ findFirstTelnetIdx.go bs i = Int.ofNat j := by
  intro bs
  induction bs with
  | nil => intro i h; simp at h
  | cons b rest ih =>
    intro i h
    simp only [findFirstTelnetIdx.go]
    by_cases hb : (lowerStr b.protocol == "telnet") = true
    · exact ⟨i, le_refl i, by rw [if_pos hb]⟩
    · rw [if_neg hb]
      have hrest : ∃ b2 ∈ rest, lowerStr b2.protocol = "telnet" := by
        rcases h with ⟨b2, hb2, hp⟩
        rcases List.mem_cons.mp hb2 with rfl | hmem
        · exact absurd (by simp [hp]) hb
        · exact ⟨b2, hmem, hp⟩
      obtain ⟨j, hij, hgo⟩ := ih (i + 1) hrest
      exact ⟨j, by omega, hgo⟩

/- ------------------------------------------------------------------ -/
/- Claim theorems                                                      -/
/- ------------------------------------------------------------------ -/

/-- C1 counterexample: building the chain over two SSH bastions where
hop 2 rejects authentication raises `AuthenticationFailed`, and the
action trace shows hop 1's client opened but never closed — contrary to
the claim that every previously opened handle is closed before the
error propagates. -/
theorem c1_build_leak_cex :
    netmikoBuild [bastionOne, bastionTwo] devJuniper connFailSecond =
      (Except.error (BuildError.authFailed "auth"),
       [BuildAction.openClient 0, BuildAction.openChannel 0]) ∧
    BuildAction.openClient 0 ∈
      (netmikoBuild [bastionOne, bastionTwo] devJuniper connFailSecond).2 ∧
    BuildAction.closeClient 0 ∉
      (netmikoBuild [bastionOne, bastionTwo] devJuniper connFailSecond).2 := by
  refine ⟨rfl, by decide, by decide⟩

/-- C1 (amended): when `NetmikoSession.build` raises at any hop, none of
the previously opened connection handles is closed before the error
propagates — the build contains no cleanup path, and the handles are
closed only by `disconnect()` after a successful build. -/
theorem c1_build_no_close_on_failure :
    ∀ (bastions : List BastionConfig) (device : DeviceConfig)
      (connectAt : Nat → ConnectOutcome) (e : BuildError) (tr : List BuildAction),
      netmikoBuild bastions device connectAt = (Except.error e, tr) →
      ∀ i, BuildAction.closeClient i ∉ tr := by
  intro bastions device connectAt e tr h i
  have h2 : (netmikoBuild bastions device connectAt).2 = tr :=
    congrArg Prod.snd h
  rw [← h2]
  exact buildLoop_no_close device connectAt bastions 0 i

/-- C1 witness: the amended theorem applied to the concrete two-hop
failing build. -/
theorem c1_build_no_close_witness :
    BuildAction.closeClient 0 ∉
      [BuildAction.openClient 0, BuildAction.openChannel 0] :=
  c1_build_no_close_on_failure [bastionOne, bastionTwo] devJuniper
    connFailSecond (BuildError.authFailed "auth")
    [BuildAction.openClient 0, BuildAction.openChannel 0] rfl 0

/-- C2 counterexample: with two applicable commands where the second
send raises a timeout, `execute_commands` escapes with only the
exception — the value observed by the caller is `Except.error` carrying
the message alone, although the first command had already produced a
`CommandResult` (as the spec-modelled channel `executeCommandsSpec`
shows).  The claimed partial-results/error pair does not exist in the
code. -/
theorem c2_results_discarded_cex :
    executeCommands devJuniper sendFailSecond [allCmd, allCmdB] =
      Except.error (ExecError.timeoutErr "timed out") ∧
    executeCommandsSpec devJuniper sendFailSecond [allCmd, allCmdB] =
      Except.error ([mkResult devJuniper allCmd "out1"],
        ExecError.timeoutErr "timed out") := by
  refine ⟨rfl, rfl⟩

/-- C2 (amended): a timeout or connection error raised during the N-th
applicable command aborts the remaining commands — the trace of
commands sent to the session is exactly the applicable commands up to
and including the failing one — and the caller receives only the error:
the `CommandResult`s already produced are discarded (the escaping value
carries no result list). -/
theorem c2_abort_and_discard :
    ∀ (device : DeviceConfig) (sendAt : Nat → SendOutcome)
      (commands : List CommandConfig) (e : ExecError),
      executeCommands device sendAt commands = Except.error e →
      ∃ m, (executeCommandsTr device sendAt commands).2 =
          ((commands.filter (shouldExecute device)).map
            (fun c => c.command)).take (m + 1) ∧
        (match sendAt m with
         | SendOutcome.ok _ => False
         | SendOutcome.timeoutRaise msg => e = ExecError.timeoutErr msg
         | SendOutcome.connRaise msg => e = ExecError.connErr msg) := by
  intro device sendAt commands e h
  have := runTargets_error_shape device sendAt
    (commands.filter (shouldExecute device)) 0 e h
  simpa using this

/-- C2 witness: the amended theorem applied to the concrete failing
batch. -/
theorem c2_abort_and_discard_witness :
    ∃ m, (executeCommandsTr devJuniper sendFailSecond [allCmd, allCmdB]).2 =
        ((([allCmd, allCmdB] : List CommandConfig).filter
          (shouldExecute devJuniper)).map (fun c => c.command)).take (m + 1) ∧
      (match sendFailSecond m with
       | SendOutcome.ok _ => False
       | SendOutcome.timeoutRaise msg =>
         ExecError.timeoutErr "timed out" = ExecError.timeoutErr msg
       | SendOutcome.connRaise msg =>
         ExecError.timeoutErr "timed out" = ExecError.connErr msg) :=
  c2_abort_and_discard devJuniper sendFailSecond [allCmd, allCmdB]
    (ExecError.timeoutErr "timed out") rfl

/-- C3: strategy selection of `ConnectionManager.connect`: a telnet-free
bastion list always builds the Netmiko (chained secure) session; a list
whose first hop is telnet builds the interactive session; a telnet hop
first appearing after a non-telnet hop raises the unsupported-topology
error with no socket opened. -/
theorem c3_connect_path_selection :
    (∀ bastions : List BastionConfig,
      (∀ b ∈ bastions, lowerStr b.protocol ≠ "telnet") →
      connectSelect bastions =
        (Except.ok ConnSel.useNetmiko, [OpenAction.openNetmikoChain])) ∧
    (∀ (b : BastionConfig) (bs : List BastionConfig),
      lowerStr b.protocol = "telnet" →
      connectSelect (b :: bs) =
        (Except.ok ConnSel.useInteractive, [OpenAction.openTelnetSocket])) ∧
    (∀ (b : BastionConfig) (bs : List BastionConfig),
      lowerStr b.protocol ≠ "telnet" →
      (∃ b2 ∈ bs, lowerStr b2.protocol = "telnet") →
      connectSelect (b :: bs) = (Except.error TopologyError.unsupported, [])) := by
  refine ⟨?_, ?_, ?_⟩
  · intro bastions h
    have hidx : findFirstTelnetIdx bastions = -1 :=
      telnetIdx_of_no_telnet bastions 0 h
    simp [connectSelect, hidx]
  · intro b bs h
    have hidx : findFirstTelnetIdx (b :: bs) = Int.ofNat 0 := by
      simp [findFirstTelnetIdx, findFirstTelnetIdx.go, h]
    simp [connectSelect, hidx]
  · intro b bs hb hex
    have hb2 : ¬(lowerStr b.protocol == "telnet") = true := by simpa using hb
    obtain ⟨j, hj, hgo⟩ := telnetIdx_of_telnet bs 1 hex
    have hidx : findFirstTelnetIdx (b :: bs) = Int.ofNat j := by
      simp only [findFirstTelnetIdx, findFirstTelnetIdx.go]
      rw [if_neg hb2]
      exact hgo
    have h1 : ¬(findFirstTelnetIdx (b :: bs) == -1) = true := by
      rw [hidx]; simp
    have h2 : findFirstTelnetIdx (b :: bs) > 0 := by
      rw [hidx]
      exact Int.ofNat_pos.mpr (by omega)
    simp [connectSelect, h1, h2]

/-- C3 witness: the three selection branches at concrete bastion
lists. -/
theorem c3_connect_path_selection_witness :
    connectSelect [bastionOne] =
      (Except.ok ConnSel.useNetmiko, [OpenAction.openNetmikoChain]) ∧
    connectSelect [bastionTelnet, bastionOne] =
      (Except.ok ConnSel.useInteractive, [OpenAction.openTelnetSocket]) ∧
    connectSelect [bastionOne, bastionTelnet] =
      (Except.error TopologyError.unsupported, []) := by
  refine ⟨?_, ?_, ?_⟩
  · exact c3_connect_path_selection.1 [bastionOne] (by decide)
  · exact c3_connect_path_selection.2.1 bastionTelnet [bastionOne] (by decide)
  · exact c3_connect_path_selection.2.2 bastionOne [bastionTelnet] (by decide)
      ⟨bastionTelnet, by simp, by decide⟩

/-- C7: a successful `execute_commands` run produces exactly one result
per applicable command (vendor filter null or case-insensitively equal
to the device vendor), in declaration order — skipped commands never
appear; concretely, a cisco-only command and an unrestricted command
run against a juniper device yield exactly the unrestricted command's
result. -/
theorem c7_vendor_filter :
    (∀ (device : DeviceConfig) (sendAt : Nat → SendOutcome)
      (commands : List CommandConfig) (rs : List CommandResult),
      executeCommands device sendAt commands = Except.ok rs →
      rs.map (fun r => r.commandName) =
        (commands.filter (shouldExecute device)).map (fun c => c.name) ∧
      rs.map (fun r => r.command) =
        (commands.filter (shouldExecute device)).map (fun c => c.command)) ∧
    executeCommands devJuniper sendAllOk [ciscoCmd, allCmd] =
      Except.ok [mkResult devJuniper allCmd "ok-output"] := by
  refine ⟨?_, rfl⟩
  intro device sendAt commands rs h
  have := runTargets_ok_shape device sendAt
    (commands.filter (shouldExecute device)) 0 rs h
  exact ⟨this.1, this.2.1⟩

/-- C7 witness: the general filtering statement applied to the concrete
juniper-device batch. -/
theorem c7_vendor_filter_witness :
    ([mkResult devJuniper allCmd "ok-output"].map (fun r => r.commandName) =
      (([ciscoCmd, allCmd] : List CommandConfig).filter
        (shouldExecute devJuniper)).map (fun c => c.name)) ∧
    ([mkResult devJuniper allCmd "ok-output"].map (fun r => r.command) =
      (([ciscoCmd, allCmd] : List CommandConfig).filter
        (shouldExecute devJuniper)).map (fun c => c.command)) :=
  c7_vendor_filter.1 devJuniper sendAllOk [ciscoCmd, allCmd]
    [mkResult devJuniper allCmd "ok-output"] rfl

/-- C9: `ConnectionManager.disconnect` is idempotent: after a connect
left any session in `_session`, a second disconnect finds `_session`
empty, performs no close action, and the two consecutive calls perform
exactly the actions of the first. -/
theorem c9_disconnect_idempotent :
    ∀ s : SessionModel,
      managerDisconnect (managerDisconnect (some s)).1 = (none, []) ∧
      (managerDisconnect (some s)).2 ++
          (managerDisconnect (managerDisconnect (some s)).1).2 =
        (managerDisconnect (some s)).2 := by
  intro s
  simp [managerDisconnect]

/-- C10: every `CommandResult` in a list returned by
`execute_commands` has its `error` field equal to `None`: the executor
builds results only through the dataclass defaults and surfaces every
failure as an exception instead. -/
theorem c10_results_error_none :
    ∀ (device : DeviceConfig) (sendAt : Nat → SendOutcome)
      (commands : List CommandConfig) (rs : List CommandResult),
      executeCommands device sendAt commands = Except.ok rs →
      ∀ r ∈ rs, r.error = none := by
  intro device sendAt commands rs h
  exact (runTargets_ok_shape device sendAt
    (commands.filter (shouldExecute device)) 0 rs h).2.2

/-- C10 witness: the invariant applied to the one result of the
concrete successful batch. -/
theorem c10_results_error_none_witness :
    (mkResult devJuniper allCmd "ok-output").error = none :=
  c10_results_error_none devJuniper sendAllOk [ciscoCmd, allCmd]
    [mkResult devJuniper allCmd "ok-output"] rfl
    (mkResult devJuniper allCmd "ok-output") (by simp)

/-- Escape-free byte lists pass through `_process_iac` unchanged, with
no reply sent. -/
theorem processIacAux_normal_noIac :
    ∀ bs : List Nat, noIac bs = true →
      processIacAux IacState.normal bs = (bs, []) := by
  intro bs
  induction bs with
  | nil => intro _; rfl
  | cons b rest ih =>
    intro h
    simp only [noIac, List.all_cons, Bool.and_eq_true] at h
    have hb : ¬(b == 255) = true := by simpa using h.1
    simp only [processIacAux, hb]
    rw [ih (by simpa [noIac] using h.2)]
    simp

/-- Inside a subnegotiation block the scan discards everything up to
the first `IAC SE` pair and resumes in the normal state. -/
theorem processIacAux_inSb_skip :
    ∀ (blk rest : List Nat), noIac blk = true →
      processIacAux IacState.inSb (blk ++ 255 :: 240 :: rest) =
        processIacAux IacState.normal rest := by
  intro blk
  induction blk with
  | nil =>
    intro rest _
    simp [processIacAux]
  | cons b blk2 ih =>
    intro rest h
    simp only [noIac, List.all_cons, Bool.and_eq_true] at h
    have hb : ¬(b == 255) = true := by simpa using h.1
    simp only [List.cons_append, processIacAux, hb, if_neg]
    exact ih rest (by simpa [noIac] using h.2)

/-- ASCII bytes decode to themselves. -/
theorem utf8DecodeGo_ascii :
    ∀ (l : List Nat) (fuel : Nat), l.length ≤ fuel →
      (∀ b ∈ l, b < 128) → utf8DecodeGo fuel l = l.map Char.ofNat := by
  intro l
  induction l with
  | nil =>
    intro fuel _ _
    cases fuel <;> rfl
  | cons b rest ih =>
    intro fuel hfuel hb
    cases fuel with
    | zero => simp at hfuel
    | succ f =>
      have h1 : b < 128 := hb b (by simp)
      simp only [utf8DecodeGo, if_pos h1, List.map_cons]
      rw [ih f (by simpa using hfuel) (fun x hx => hb x (by simp [hx]))]

/-- `dropCsi` does not fire when the head is not the escape char. -/
theorem dropCsi_of_ne (a : Char) (rest : List Char) (h : a ≠ '\x1b') :
    dropCsi (a :: rest) = none := by
  cases rest with
  | nil => rfl
  | cons b rest2 =>
    have : ¬(a == '\x1b') = true := by simpa using h
    simp [dropCsi, this]

/-- `dropOsc` does not fire when the head is not the escape char. -/
theorem dropOsc_of_ne (a : Char) (rest : List Char) (h : a ≠ '\x1b') :
    dropOsc (a :: rest) = none := by
  cases rest with
  | nil => rfl
  | cons b rest2 =>
    have : ¬(a == '\x1b') = true := by simpa using h
    simp [dropOsc, this]

/-- Escape-free character lists pass through the ANSI filter
unchanged. -/
theorem ansiStripGo_of_no_esc :
    ∀ (l : List Char) (fuel : Nat), l.length ≤ fuel →
      (∀ c ∈ l, c ≠ '\x1b') → ansiStripGo fuel l = l := by
  intro l
  induction l with
  | nil =>
    intro fuel _ _
    cases fuel <;> rfl
  | cons c rest ih =>
    intro fuel hfuel hc
    cases fuel with
    | zero => simp at hfuel
    | succ f =>
      have h1 : c ≠ '\x1b' := hc c (by simp)
      simp only [ansiStripGo, dropCsi_of_ne c rest h1, dropOsc_of_ne c rest h1]
      rw [ih f (by simpa using hfuel) (fun x hx => hc x (by simp [hx]))]

/-- Carriage-return-free character lists pass through newline
normalization unchanged. -/
theorem normNl_of_no_cr :
    ∀ l : List Char, (∀ c ∈ l, c ≠ '\r') → normNl l = l := by
  intro l
  induction l with
  | nil => intro _; rfl
  | cons c rest ih =>
    intro hc
    have h1 : ¬(c == '\r') = true := by simpa using hc c (by simp)
    cases rest with
    | nil => simp [normNl, h1]
    | cons d rest2 =>
      simp only [normNl, h1, if_neg]
      rw [ih (fun x hx => hc x (by simp [hx]))]
      simp

/-- Printable ASCII text survives `_decode_buffer` unchanged. -/
theorem decodeBuffer_printable (text : String)
    (h : printableAscii text = true) :
    decodeBuffer (text.data.map Char.toNat) = text := by
  have hchars : ∀ c ∈ text.data, 32 ≤ c.toNat ∧ c.toNat ≤ 126 := by
    intro c hc
    have := (List.all_eq_true.mp h) c hc
    simpa using this
  have hdec : utf8Decode (text.data.map Char.toNat) = text.data := by
    rw [utf8Decode]
    rw [utf8DecodeGo_ascii (text.data.map Char.toNat) _ (by simp)
      (by intro b hb
          obtain ⟨c, hc, rfl⟩ := List.mem_map.mp hb
          have := (hchars c hc).2
          omega)]
    rw [List.map_map]
    have : (Char.ofNat ∘ Char.toNat) = id := by
      funext c
      exact Char.ofNat_toNat c
    rw [this, List.map_id]
  have hesc : ∀ c ∈ text.data, c ≠ '\x1b' := by
    intro c hc heq
    have := (hchars c hc).1
    rw [heq] at this
    simp at this
  have hcr : ∀ c ∈ text.data, c ≠ '\r' := by
    intro c hc heq
    have := (hchars c hc).1
    rw [heq] at this
    simp at this
  rw [decodeBuffer, hdec, ansiStrip,
    ansiStripGo_of_no_esc text.data _ (le_refl _) hesc,
    normNl_of_no_cr text.data hcr]

/-- C4: the negotiation handler answers every complete `will` triplet
with `don't` for the same option and every complete `do` triplet with
`won't`, removes the triplets and whole subnegotiation blocks from the
payload, passes other bytes through, and therefore a stream consisting
of one `will` offer followed by printable text decodes to exactly that
text with the `don't` reply recorded as sent. -/
theorem c4_iac_negotiation :
    (∀ (b : Nat) (data : List Nat), b ≠ 255 →
      processIac (b :: data) =
        (b :: (processIac data).1, (processIac data).2)) ∧
    (∀ (opt : Nat) (data : List Nat),
      processIac (255 :: 251 :: opt :: data) =
        ((processIac data).1, [255, 254, opt] :: (processIac data).2)) ∧
    (∀ (opt : Nat) (data : List Nat),
      processIac (255 :: 253 :: opt :: data) =
        ((processIac data).1, [255, 252, opt] :: (processIac data).2)) ∧
    (∀ (blk rest : List Nat), noIac blk = true →
      processIac (255 :: 250 :: (blk ++ 255 :: 240 :: rest)) =
        processIac rest) ∧
    (∀ (opt : Nat) (text : String), printableAscii text = true →
      processIac (255 :: 251 :: opt :: text.data.map Char.toNat) =
        (text.data.map Char.toNat, [[255, 254, opt]]) ∧
      decodeBuffer
        (processIac (255 :: 251 :: opt :: text.data.map Char.toNat)).1 =
        text) := by
  have hwill : ∀ (opt : Nat) (data : List Nat),
      processIac (255 :: 251 :: opt :: data) =
        ((processIac data).1, [255, 254, opt] :: (processIac data).2) := by
    intro opt data
    simp [processIac, processIacAux]
  refine ⟨?_, hwill, ?_, ?_, ?_⟩
  · intro b data hb
    have hb2 : ¬(b == 255) = true := by simpa using hb
    simp [processIac, processIacAux, hb2]
  · intro opt data
    simp [processIac, processIacAux]
  · intro blk rest h
    simp only [processIac, processIacAux]
    norm_num
    exact processIacAux_inSb_skip blk rest h
  · intro opt text h
    have hascii : noIac (text.data.map Char.toNat) = true := by
      simp only [noIac, List.all_eq_true]
      intro b hb
      obtain ⟨c, hc, rfl⟩ := List.mem_map.mp hb
      have h2 : 32 ≤ c.toNat ∧ c.toNat ≤ 126 := by
        simpa using (List.all_eq_true.mp h) c hc
      simp only [bne_iff_ne]
      omega
    have hclean : processIac (text.data.map Char.toNat) =
        (text.data.map Char.toNat, []) :=
      processIacAux_normal_noIac (text.data.map Char.toNat) hascii
    constructor
    · rw [hwill opt (text.data.map Char.toNat), hclean]
    · rw [hwill opt (text.data.map Char.toNat), hclean]
      exact decodeBuffer_printable text h

/-- C4 witness: the negotiation statements at concrete byte streams. -/
theorem c4_iac_negotiation_witness :
    (processIac (65 :: [66]) =
      (65 :: (processIac [66]).1, (processIac [66]).2)) ∧
    (processIac (255 :: 250 :: ([1, 2] ++ 255 :: 240 :: [65])) =
      processIac [65]) ∧
    (processIac (255 :: 251 :: 7 :: "hi".data.map Char.toNat) =
      ("hi".data.map Char.toNat, [[255, 254, 7]]) ∧
     decodeBuffer
       (processIac (255 :: 251 :: 7 :: "hi".data.map Char.toNat)).1 =
       "hi") :=
  ⟨c4_iac_negotiation.1 65 [66] (by decide),
   c4_iac_negotiation.2.2.2.1 [1, 2] [65] (by decide),
   c4_iac_negotiation.2.2.2.2 7 "hi" (by decide)⟩

/-- C8: behaviour of `read_until` on its three exits: when no supplied
pattern ever matches and the deadline expires (the event list runs out)
it fails with a timeout error carrying the last 200 characters of the
accumulated text; when the peer closes before any match it fails with
the connection-closed error; and on a match it returns the full
accumulated text (including stabilization data) and clears the internal
buffer. -/
theorem c8_read_until_errors :
    (∀ (pats : List (String → Bool)) (events : List RecvEvent) (buf : List Nat),
      noMatchRun pats buf events = true →
      events.all (fun e => e != RecvEvent.closed) = true →
      readUntil pats events buf =
        (ReadOutcome.timeoutErr
          (strTakeRight (decodeBuffer (accum buf events)) 200),
         accum buf events)) ∧
    (∀ (pats : List (String → Bool)) (pre rest : List RecvEvent)
      (buf : List Nat),
      noMatchRun pats buf pre = true →
      pre.all (fun e => e != RecvEvent.closed) = true →
      readUntil pats (pre ++ RecvEvent.closed :: rest) buf =
        (ReadOutcome.connClosed, accum buf pre)) ∧
    (∀ (pats : List (String → Bool)) (events : List RecvEvent)
      (buf : List Nat),
      (pats.any fun p => p (decodeBuffer buf)) = true →
      readUntil pats events buf =
        (ReadOutcome.ok (decodeBuffer (buf ++ stabilize events)), [])) := by
  refine ⟨?_, ?_, ?_⟩
  · intro pats events
    induction events with
    | nil =>
      intro buf hnm _
      have h0 : ¬(pats.any fun p => p (decodeBuffer buf)) = true := by
        simpa [noMatchRun] using hnm
      simp [readUntil, h0, accum]
    | cons e rest ih =>
      intro buf hnm hnc
      simp only [noMatchRun, Bool.and_eq_true] at hnm
      have h0 : ¬(pats.any fun p => p (decodeBuffer buf)) = true := by
        simpa using hnm.1
      simp only [List.all_cons, Bool.and_eq_true] at hnc
      cases e with
      | chunk bs =>
        have := ih (buf ++ cleanChunk bs) (by simpa using hnm.2) hnc.2
        simp only [readUntil, h0, if_neg]
        simpa [accum] using this
      | timedOut =>
        have := ih buf (by simpa using hnm.2) hnc.2
        simp only [readUntil, h0, if_neg]
        simpa [accum] using this
      | closed => simp at hnc
  · intro pats pre
    induction pre with
    | nil =>
      intro rest buf hnm _
      have h0 : ¬(pats.any fun p => p (decodeBuffer buf)) = true := by
        simpa [noMatchRun] using hnm
      simp [readUntil, h0, accum]
    | cons e rest2 ih =>
      intro rest buf hnm hnc
      simp only [noMatchRun, Bool.and_eq_true] at hnm
      have h0 : ¬(pats.any fun p => p (decodeBuffer buf)) = true := by
        simpa using hnm.1
      simp only [List.all_cons, Bool.and_eq_true] at hnc
      cases e with
      | chunk bs =>
        have := ih rest (buf ++ cleanChunk bs) (by simpa using hnm.2) hnc.2
        simp only [List.cons_append, readUntil, h0, if_neg]
        simpa [accum] using this
      | timedOut =>
        have := ih rest buf (by simpa using hnm.2) hnc.2
        simp only [List.cons_append, readUntil, h0, if_neg]
        simpa [accum] using this
      | closed => simp at hnc
  · intro pats events buf h
    rw [readUntil.eq_def]
    simp only [h, if_pos]

/-- C8 witness: the three exits at concrete event runs. -/
theorem c8_read_until_errors_witness :
    (readUntil [fun s => strContains s "zz"]
        [RecvEvent.chunk [97], RecvEvent.timedOut] [98] =
      (ReadOutcome.timeoutErr
        (strTakeRight
          (decodeBuffer
            (accum [98] [RecvEvent.chunk [97], RecvEvent.timedOut])) 200),
       accum [98] [RecvEvent.chunk [97], RecvEvent.timedOut])) ∧
    (readUntil [fun s => strContains s "zz"]
        ([RecvEvent.timedOut] ++ RecvEvent.closed :: []) [98] =
      (ReadOutcome.connClosed, accum [98] [RecvEvent.timedOut])) ∧
    (readUntil [fun s => strContains s "a"] [] [97] =
      (ReadOutcome.ok (decodeBuffer ([97] ++ stabilize [])), [])) :=
  ⟨c8_read_until_errors.1 [fun s => strContains s "zz"]
     [RecvEvent.chunk [97], RecvEvent.timedOut] [98] (by decide) (by decide),
   c8_read_until_errors.2.1 [fun s => strContains s "zz"]
     [RecvEvent.timedOut] [] [98] (by decide) (by decide),
   c8_read_until_errors.2.2 [fun s => strContains s "a"] [] [97] (by decide)⟩

/-- C5 counterexample: the source's pager pattern
`--[-(]more[)-]-+|<more>|\(END\)` does not match `--More--` (the first
alternative needs a third dash or a parenthesis after `--`), so for the
claimed device output the first chunk is treated as final: no
continuation keystroke is sent (the write trace is just the command),
the second page is never read, and the returned output is
`"page1\n--More--"`, not `"page1\npage2"`. -/
theorem c5_pager_roundtrip_cex :
    sendCommand PromptPat.juniper "show bgp"
        ["page1\n--More--\n", "page2\nhost>"] =
      some ("page1\n--More--", ["show bgp"]) ∧
    pagerSearch ("page1\n--More--\n").data = false ∧
    ("page1\n--More--" : String) ≠ "page1\npage2" := by
  refine ⟨rfl, by decide, by decide⟩

/-- C5 (amended): for a marker the pattern does recognize, such as
`<more>`, the round-trip works: the marker is stripped from the chunk,
a space keystroke is sent, and the result is the concatenation with the
marker and trailing prompt removed — the marker's emptied line survives
as a blank line, giving `"page1\n\npage2"`. -/
theorem c5_pager_roundtrip_amended :
    sendCommand PromptPat.juniper "show bgp"
        ["page1\n<more>\n", "page2\nhost>"] =
      some ("page1\n\npage2", ["show bgp", " "]) ∧
    pagerSearch ("page1\n<more>\n").data = true := by
  refine ⟨rfl, by decide⟩

/-- Appending a line to a list with a non-blank entry does not change
the leading-blank count. -/
theorem countLeadingBlank_append_of_lt :
    ∀ (ls : List String) (p : String),
      countLeadingBlank ls < ls.length →
      countLeadingBlank (ls ++ [p]) = countLeadingBlank ls := by
  intro ls p
  induction ls with
  | nil => intro h; simp at h
  | cons l rest ih =>
    intro h
    by_cases hl : (pyStrip l == "") = true
    · have h2 : countLeadingBlank rest < rest.length := by
        simp [countLeadingBlank, hl] at h
        omega
      simp [countLeadingBlank, hl, ih h2]
    · simp [countLeadingBlank, hl]

/-- The leading-prompt run never exceeds the list length. -/
theorem countLeadingPrompt_le :
    ∀ (pat : PromptPat) (ls : List String),
      countLeadingPrompt pat ls ≤ ls.length := by
  intro pat ls
  induction ls with
  | nil => simp [countLeadingPrompt]
  | cons l rest ih =>
    by_cases hl : promptSearch pat (pyStrip l) = true
    · simp only [countLeadingPrompt, hl, if_pos, List.length_cons]
      omega
    · simp only [countLeadingPrompt, if_neg hl, List.length_cons]
      omega

/-- C6: `_clean_output` drops the first non-blank line exactly when it
contains the command text, drops trailing prompt-matching lines from
the end, and on the spec's concrete example returns exactly the device
output line. -/
theorem c6_clean_output :
    cleanOutput PromptPat.juniper "show version"
        "show version\nJunos: 21.4R1\nhost>" = "Junos: 21.4R1" ∧
    (∀ (cmd l : String) (ls : List String), pyStrip l ≠ "" →
      strContains l (pyStrip cmd) = true → startIdx cmd (l :: ls) = 1) ∧
    (∀ (cmd l : String) (ls : List String), pyStrip l ≠ "" →
      strContains l (pyStrip cmd) = false → startIdx cmd (l :: ls) = 0) ∧
    (∀ (pat : PromptPat) (cmd p : String) (ls : List String),
      promptSearch pat (pyStrip p) = true →
      countLeadingBlank ls < ls.length →
      cleanLines pat cmd (ls ++ [p]) = cleanLines pat cmd ls) := by
  refine ⟨rfl, ?_, ?_, ?_⟩
  · intro cmd l ls hl hc
    have hl2 : ¬(pyStrip l == "") = true := by simpa using hl
    simp [startIdx, countLeadingBlank, hl2, hc]
  · intro cmd l ls hl hc
    have hl2 : ¬(pyStrip l == "") = true := by simpa using hl
    simp [startIdx, countLeadingBlank, hl2, hc]
  · intro pat cmd p ls hp hlt
    have hclb : countLeadingBlank (ls ++ [p]) = countLeadingBlank ls :=
      countLeadingBlank_append_of_lt ls p hlt
    have hdrop : (ls ++ [p]).drop (countLeadingBlank ls) =
        ls.drop (countLeadingBlank ls) ++ [p] :=
      List.drop_append_of_le_length (le_of_lt hlt)
    obtain ⟨l0, tl, hl0⟩ : ∃ l0 tl,
        ls.drop (countLeadingBlank ls) = l0 :: tl := by
      cases hd : ls.drop (countLeadingBlank ls) with
      | nil =>
        exfalso
        have := congrArg List.length hd
        simp [List.length_drop] at this
        omega
      | cons a b => exact ⟨a, b, rfl⟩
    have hstart : startIdx cmd (ls ++ [p]) = startIdx cmd ls := by
      simp only [startIdx, hclb, hdrop, hl0, List.cons_append]
    have hs0le : startIdx cmd ls ≤ ls.length := by
      simp only [startIdx, hl0]
      by_cases hc : strContains l0 (pyStrip cmd) = true
      · simp only [hc, if_pos]
        omega
      · simp only [if_neg hc]
        omega
    have hdrop2 : (ls ++ [p]).drop (startIdx cmd ls) =
        ls.drop (startIdx cmd ls) ++ [p] :=
      List.drop_append_of_le_length hs0le
    have hcount : countLeadingPrompt pat
        ((ls.drop (startIdx cmd ls) ++ [p]).reverse) =
        countLeadingPrompt pat (ls.drop (startIdx cmd ls)).reverse + 1 := by
      simp only [List.reverse_append, List.reverse_cons, List.reverse_nil,
        List.nil_append, List.singleton_append, countLeadingPrompt, hp, if_pos]
    have hn : countLeadingPrompt pat (ls.drop (startIdx cmd ls)).reverse ≤
        (ls.drop (startIdx cmd ls)).length := by
      have := countLeadingPrompt_le pat (ls.drop (startIdx cmd ls)).reverse
      simpa using this
    simp only [cleanLines, endIdx, hstart, hdrop2, hcount]
    have harith : ∀ a b c : Nat, b ≤ a →
        c + (a + 1 - (b + 1)) - c = a - b := by
      intro a b c hba
      omega
    rw [show (ls.drop (startIdx cmd ls) ++ [p]).length =
        (ls.drop (startIdx cmd ls)).length + 1 by simp]
    rw [harith _ _ _ hn]
    rw [List.take_append_of_le_length (by omega)]
    rw [show startIdx cmd ls +
        ((ls.drop (startIdx cmd ls)).length -
          countLeadingPrompt pat (ls.drop (startIdx cmd ls)).reverse) -
        startIdx cmd ls =
        (ls.drop (startIdx cmd ls)).length -
          countLeadingPrompt pat (ls.drop (startIdx cmd ls)).reverse by omega]

/-- C6 witness: the two echo-drop branches and the trailing-prompt drop
at concrete lines. -/
theorem c6_clean_output_witness :
    startIdx "show version" ["show version x"] = 1 ∧
    startIdx "show version" ["abc"] = 0 ∧
    cleanLines PromptPat.juniper "c" (["out"] ++ ["host>"]) =
      cleanLines PromptPat.juniper "c" ["out"] :=
  ⟨c6_clean_output.2.1 "show version" "show version x" [] (by decide) (by decide),
   c6_clean_output.2.2.1 "show version" "abc" [] (by decide) (by decide),
   c6_clean_output.2.2.2 PromptPat.juniper "c" "host>" ["out"] (by decide)
     (by decide)⟩
